import Mathlib

/-!
Verification development for the github-sync submodule updater.

The definitions below are a shallow embedding of the TypeScript sources:
`src/git-service.ts` (the `GitService` class), `src/submodule-parser.ts`
(`SubmoduleParser`), `src/github-service.ts` (`GitHubService`) and
`src/submodule-updater.ts` (`SubmoduleUpdater`).  Effectful collaborators
(the git working tree, the GitHub API, the filesystem) are modelled as
explicit oracle records; each oracle field gives the outcome of one
underlying effectful call (`none`/`Except.ok` for success, `some msg` /
`Except.error msg` for a thrown error carrying message `msg`).  Functions
return, besides their value, a trace of the side-effecting git actions
they performed, in order.
-/

namespace GithubSync

/-- Test whether `pat` occurs at the head of `s`. -/
def charsLeadWith : List Char → List Char → Bool
  | [], _ => true
  | _ :: _, [] => false
  | p :: ps, c :: cs => (p = c) && charsLeadWith ps cs

/-- Test whether `pat` occurs anywhere inside `s`. -/
def charsHaveSub : List Char → List Char → Bool
  | [], pat => pat.isEmpty
  | c :: rest, pat => charsLeadWith pat (c :: rest) || charsHaveSub rest pat

/-- Substring test, modelling JavaScript `String.prototype.includes`. -/
def strContains (s pat : String) : Bool :=
  charsHaveSub s.toList pat.toList

/-- Split a character sequence at newline characters, modelling how a git
commit message decomposes into lines (`"".lines = [""]`, a trailing
newline yields a trailing empty line). -/
def linesOf : List Char → List (List Char)
  | [] => [[]]
  | c :: rest =>
    if c = '\n' then [] :: linesOf rest
    else
      match linesOf rest with
      | [] => [[c]]
      | l :: ls => (c :: l) :: ls

/-- Result of `GitService.getLatestCommitMessage`: the parent repository's
latest commit message, `"Initial commit"` when the log is empty, and
`"Update submodules"` when reading the log throws.  The oracle input is the
outcome of `git log` (`Except.error` = the call threw; `Except.ok none` =
no commits; `Except.ok (some m)` = latest message `m`). -/
def getLatestCommitMessage (logLatest : Except String (Option String)) : String :=
  match logLatest with
  | .error _ => "Update submodules"
  | .ok none => "Initial commit"
  | .ok (some m) => m

/-- The commit message built by `GitService.commitSubmoduleUpdate`:
the repository's latest commit message, a blank line, then
`Update submodule <path>`, `- From: <fromCommit>` and `- To: <toCommit>`. -/
def buildCommitMessage (syncMsg path fromCommit toCommit : String) : String :=
  syncMsg ++ "\n\nUpdate submodule " ++ path ++ "\n- From: " ++ fromCommit
    ++ "\n- To: " ++ toCommit

/-- One side-effecting action performed against the working tree, the
remote, or the filesystem; runs are summarised as ordered traces of these. -/
inductive Act where
  | pushAttempt (branch : String) (force : Bool)
  | fetchOrigin
  | checkoutBranch (branch : String)
  | pullNoRebase (branch : String)
  | hardReset (target : String)
  | configureIdentity
  | syncSubmodules
  | initSubmodules
  | fetchCheckout (path target : String)
  | commitUpdate (path fromCommit toCommit : String)
  | cloneToTemp
  | cloneIntoPath (p : String)
  | removeDir (p : String)
  | useLocalRepo (p : String)
deriving DecidableEq, Repr

/-- Oracle for the git primitives invoked by `GitService`: each field is the
outcome of one underlying `simple-git` call (`none` = the call succeeds,
`some m` = it throws an error whose message is `m`). `statusBranch` is
`status.current` (`none` when `git status` fails or reports no branch);
`revparsePair` is the pair of local/remote commit ids read by
`isBehindRemote` (`none` when that comparison cannot be made). -/
structure GitEnv where
  push1 : Option String
  push2 : Option String
  pushForce : Option String
  fetchErr : Option String
  pullErr : Option String
  resetErr : Option String
  checkoutErr : Option String
  statusBranch : Option String
  revparsePair : Option (String × String)

/-- `GitService.getCurrentBranch`: `status.current || 'main'`, with `'main'`
as the fallback when reading status fails. -/
def getCurrentBranch (g : GitEnv) : String :=
  g.statusBranch.getD "main"

/-- `GitService.isBehindRemote`: compares the local and remote commit ids
and returns `false` when the comparison cannot be made. -/
def isBehindRemote (g : GitEnv) : Bool :=
  match g.revparsePair with
  | none => false
  | some (l, r) => l != r

/-- The remote-ahead classification used by `GitService.pushChanges`. -/
def isRemoteAheadError (msg : String) : Bool :=
  strContains msg "non-fast-forward" || strContains msg "fetch first" ||
    strContains msg "rejected"

/-- `GitService.handlePushError`: maps a push rejection's error text to the
message of the error it throws (the original text when unclassified). -/
def handlePushError (errMsg branch : String) : String :=
  if strContains errMsg "permission denied" || strContains errMsg "access denied" then
    "Permission denied pushing to repository. Please check your credentials and access rights."
  else if strContains errMsg "repository not found" then
    "Repository not found. Please check the remote URL and repository name."
  else if strContains errMsg "protected branch" then
    "Branch \x27" ++ branch ++ "\x27 is protected and cannot be pushed to directly. " ++
      "Please use a pull request or contact repository administrators."
  else errMsg

/-- Error wrapper of `GitService.pullAndMerge`'s outer catch. -/
def wrapPullMerge (m : String) : String :=
  "Failed to pull and merge changes: " ++ m

/-- Error wrapper of `GitService.pushChanges`'s outer catch. -/
def wrapPush (m : String) : String :=
  "Failed to push changes: " ++ m

/-- Error wrapper of `GitService.syncRemoteChanges`'s outer catch. -/
def wrapSync (m : String) : String :=
  "Failed to sync remote changes: " ++ m

/-- The inner try of `GitService.pullAndMerge`, entered after any branch
checkout: pull with merge; on a pull failure mentioning `submodule`,
hard-reset to `origin/<branch>`; any other failure propagates (wrapped). -/
def pullAndMergeBody (g : GitEnv) (targetBranch : String) (tr : List Act) :
    List Act × Except String Unit :=
  match g.pullErr with
  | none => (tr ++ [Act.pullNoRebase targetBranch], .ok ())
  | some e =>
    if strContains e "submodule" then
      match g.resetErr with
      | none =>
          (tr ++ [Act.pullNoRebase targetBranch,
            Act.hardReset ("origin/" ++ targetBranch)], .ok ())
      | some r =>
          (tr ++ [Act.pullNoRebase targetBranch,
            Act.hardReset ("origin/" ++ targetBranch)], .error (wrapPullMerge r))
    else (tr ++ [Act.pullNoRebase targetBranch], .error (wrapPullMerge e))

/-- `GitService.pullAndMerge`: checkout the target branch when not already
on it, then run the pull/recover body. -/
def pullAndMerge (g : GitEnv) (branch : Option String) :
    List Act × Except String Unit :=
  let targetBranch := branch.getD "main"
  let cur := getCurrentBranch g
  if cur ≠ targetBranch then
    match g.checkoutErr with
    | some e => ([Act.checkoutBranch targetBranch], .error (wrapPullMerge e))
    | none => pullAndMergeBody g targetBranch [Act.checkoutBranch targetBranch]
  else pullAndMergeBody g targetBranch []

/-- `GitService.pushChanges`: force-push unconditionally when requested;
otherwise push, and on a remote-ahead rejection fetch, pull-and-merge, and
retry the push exactly once; other rejections go through
`handlePushError`.  Every failure is wrapped by the outer catch. -/
def pushChanges (g : GitEnv) (branch : Option String) (forcePush : Bool) :
    List Act × Except String Unit :=
  let targetBranch := branch.getD "main"
  if forcePush then
    match g.pushForce with
    | none => ([Act.pushAttempt targetBranch true], .ok ())
    | some e => ([Act.pushAttempt targetBranch true], .error (wrapPush e))
  else
    match g.push1 with
    | none => ([Act.pushAttempt targetBranch false], .ok ())
    | some e =>
      if isRemoteAheadError e then
        match g.fetchErr with
        | some f =>
            ([Act.pushAttempt targetBranch false, Act.fetchOrigin],
              .error (wrapPush f))
        | none =>
          let pm := pullAndMerge g (some targetBranch)
          match pm.2 with
          | .error pe =>
              (Act.pushAttempt targetBranch false :: Act.fetchOrigin :: pm.1,
                .error (wrapPush pe))
          | .ok () =>
            match g.push2 with
            | none =>
                (Act.pushAttempt targetBranch false :: Act.fetchOrigin ::
                  (pm.1 ++ [Act.pushAttempt targetBranch false]), .ok ())
            | some e2 =>
                (Act.pushAttempt targetBranch false :: Act.fetchOrigin ::
                  (pm.1 ++ [Act.pushAttempt targetBranch false]),
                  .error (wrapPush e2))
      else
        ([Act.pushAttempt targetBranch false],
          .error (wrapPush (handlePushError e targetBranch)))

/-- `GitService.syncRemoteChanges`: fetch, and when the local branch is
behind the remote, pull with merge; a pull failure mentioning `submodule`
is recovered by a hard reset to `origin/<branch>`, any other pull failure
propagates (wrapped by the outer catch). -/
def syncRemoteChanges (g : GitEnv) (branch : Option String) :
    List Act × Except String Unit :=
  let targetBranch := branch.getD "main"
  match g.fetchErr with
  | some f => ([Act.fetchOrigin], .error (wrapSync f))
  | none =>
    if isBehindRemote g then
      match g.pullErr with
      | none => ([Act.fetchOrigin, Act.pullNoRebase targetBranch], .ok ())
      | some e =>
        if strContains e "submodule" then
          match g.resetErr with
          | none =>
              ([Act.fetchOrigin, Act.pullNoRebase targetBranch,
                Act.hardReset ("origin/" ++ targetBranch)], .ok ())
          | some r =>
              ([Act.fetchOrigin, Act.pullNoRebase targetBranch,
                Act.hardReset ("origin/" ++ targetBranch)],
                .error (wrapSync r))
        else
          ([Act.fetchOrigin, Act.pullNoRebase targetBranch],
            .error (wrapSync e))
    else ([Act.fetchOrigin], .ok ())

/-- Predicate for push actions in a trace. -/
def isPushAct : Act → Bool
  | .pushAttempt _ _ => true
  | _ => false

/-- Predicate for parent-tree commit actions in a trace. -/
def isCommitAct : Act → Bool
  | .commitUpdate _ _ _ => true
  | _ => false

/-- Number of push attempts recorded in a trace. -/
def countPushAttempts (tr : List Act) : Nat :=
  tr.countP isPushAct

/-- Test whether `pat` occurs at the end of `s`. -/
def charsEndWith (pat s : List Char) : Bool :=
  charsLeadWith pat.reverse s.reverse

/-- One declared submodule, mirroring the `SubmoduleInfo` interface of
`src/types.ts`. -/
structure SubmoduleInfo where
  path : String
  url : String
  branch : Option String
  currentCommit : String
  latestCommit : String
  needsUpdate : Bool
deriving DecidableEq, Repr

/-- The partially built record accumulated by
`SubmoduleParser.parseGitmodulesContent` while scanning one
`[submodule ...]` section. -/
structure SubmoduleDraft where
  path : Option String
  url : Option String
  branch : Option String
deriving DecidableEq, Repr

/-- JavaScript whitespace trimming (`String.prototype.trim`) on both ends. -/
def trimChars (cs : List Char) : List Char :=
  ((cs.dropWhile Char.isWhitespace).reverse.dropWhile Char.isWhitespace).reverse

/-- Match of the regular expression `^<key>\s*=\s*(.+)$` against an
already trimmed line, returning the captured value. -/
def keyValueOf (key trimmed : List Char) : Option (List Char) :=
  if charsLeadWith key trimmed then
    match (trimmed.drop key.length).dropWhile Char.isWhitespace with
    | '=' :: tail =>
      let v := tail.dropWhile Char.isWhitespace
      if v.isEmpty then none else some v
    | _ => none
  else none

/-- JavaScript truthiness check of `currentSubmodule.path &&
currentSubmodule.url`: both present and non-empty. -/
def draftComplete (d : SubmoduleDraft) : Bool :=
  match d.path, d.url with
  | some p, some u => !p.isEmpty && !u.isEmpty
  | _, _ => false

/-- The `SubmoduleInfo` pushed by the parser: commit fields start empty and
`needsUpdate` starts `false`. -/
def draftToInfo (d : SubmoduleDraft) : SubmoduleInfo :=
  { path := d.path.getD "", url := d.url.getD "", branch := d.branch,
    currentCommit := "", latestCommit := "", needsUpdate := false }

/-- Parser state: whether a `[submodule ...]` header has been seen, the
draft of the current section, and the completed records so far. -/
structure ParseState where
  inSub : Bool
  draft : SubmoduleDraft
  acc : List SubmoduleInfo

/-- One line of `SubmoduleParser.parseGitmodulesContent`'s loop. -/
def stepLine (st : ParseState) (line : List Char) : ParseState :=
  let trimmed := trimChars line
  if charsLeadWith "[submodule".toList trimmed then
    let acc' :=
      if st.inSub && draftComplete st.draft then st.acc ++ [draftToInfo st.draft]
      else st.acc
    { inSub := true, draft := { path := none, url := none, branch := none },
      acc := acc' }
  else if st.inSub then
    match keyValueOf "path".toList trimmed with
    | some v => { st with draft := { st.draft with path := some (String.mk v) } }
    | none =>
      match keyValueOf "url".toList trimmed with
      | some v => { st with draft := { st.draft with url := some (String.mk v) } }
      | none =>
        match keyValueOf "branch".toList trimmed with
        | some v =>
            { st with draft := { st.draft with branch := some (String.mk v) } }
        | none => st
  else st

/-- `SubmoduleParser.parseGitmodulesContent`: split into lines, scan the
`[submodule ...]` sections, skip sections missing `path` or `url`. -/
def parseGitmodulesContent (content : String) : List SubmoduleInfo :=
  let st := (linesOf content.toList).foldl stepLine
    { inSub := false, draft := { path := none, url := none, branch := none },
      acc := [] }
  if st.inSub && draftComplete st.draft then st.acc ++ [draftToInfo st.draft]
  else st.acc

/-- Validation of the text after `https://github.com/` (or after
`git@github.com:`) against `([^\/]+)\/([^\/]+?)(?:\.git)?$`: exactly one
slash splitting a non-empty owner from a non-empty final segment, whose
optional `.git` ending is dropped. -/
def ghTailParse (tail : List Char) : Option (String × String) :=
  let owner := tail.takeWhile (fun c => c ≠ '/')
  match tail.dropWhile (fun c => c ≠ '/') with
  | '/' :: rest =>
    if owner.isEmpty || rest.isEmpty || rest.contains '/' then none
    else
      let repo :=
        if charsEndWith ".git".toList rest && rest.length > 4 then
          rest.take (rest.length - 4)
        else rest
      some (String.mk owner, String.mk repo)
  | _ => none

/-- Leftmost occurrence of the literal `lit` whose following text parses as
an owner/repo tail, mirroring an unanchored regular-expression search. -/
def scanGh (lit : List Char) : List Char → Option (String × String)
  | [] => none
  | c :: rest =>
    if charsLeadWith lit (c :: rest) then
      match ghTailParse ((c :: rest).drop lit.length) with
      | some r => some r
      | none => scanGh lit rest
    else scanGh lit rest

/-- `SubmoduleParser.extractGitHubInfo`: try the HTTPS form first, then the
SSH form, returning `(owner, repo)` on success. -/
def extractGitHubInfo (url : String) : Option (String × String) :=
  match scanGh "https://github.com/".toList url.toList with
  | some r => some r
  | none => scanGh "git@github.com:".toList url.toList

/-- Oracle for the GitHub API: `branchTip owner repo branch` is the tip
commit returned by `repos.getBranch` (`none` = the call fails) and
`repoDefaultBranch owner repo` is the `default_branch` field returned by
`repos.get` (`none` = the call fails or the field is absent). -/
structure GitHubOracle where
  branchTip : String → String → String → Option String
  repoDefaultBranch : String → String → Option String

/-- `GitHubService.getDefaultBranch`: falls back to `main` on any failure
and never throws. -/
def getDefaultBranch (gh : GitHubOracle) (owner repo : String) : String :=
  (gh.repoDefaultBranch owner repo).getD "main"

/-- `GitHubService.getLatestCommit`: the branch tip, retrying `master` when
the requested branch was `main`, and throwing on failure. -/
def getLatestCommit (gh : GitHubOracle) (owner repo branch : String) :
    Except String String :=
  match gh.branchTip owner repo branch with
  | some sha => .ok sha
  | none =>
    if branch = "main" then
      match gh.branchTip owner repo "master" with
      | some sha => .ok sha
      | none =>
          .error ("Failed to get latest commit for " ++ owner ++ "/" ++ repo)
    else .error ("Failed to get latest commit for " ++ owner ++ "/" ++ repo)

/-- The branch queried by `SubmoduleUpdater.fetchLatestCommits`:
`submodule.branch || await getDefaultBranch(...)` (a missing or empty
declared branch falls back to the remote's default branch). -/
def branchFor (gh : GitHubOracle) (s : SubmoduleInfo) (owner repo : String) :
    String :=
  match s.branch with
  | some b => if b.isEmpty then getDefaultBranch gh owner repo else b
  | none => getDefaultBranch gh owner repo

/-- The body of `SubmoduleUpdater.fetchLatestCommits` for one record: skip
records without a recognizable GitHub URL; on successful resolution set
`latestCommit` and derive `needsUpdate`; on failure fail safe by copying
`currentCommit` into `latestCommit` and clearing `needsUpdate`. -/
def fetchLatestCommitsOne (gh : GitHubOracle) (s : SubmoduleInfo) :
    SubmoduleInfo :=
  match extractGitHubInfo s.url with
  | none => s
  | some (owner, repo) =>
    match getLatestCommit gh owner repo (branchFor gh s owner repo) with
    | .ok sha => { s with latestCommit := sha, needsUpdate := sha != s.currentCommit }
    | .error _ => { s with latestCommit := s.currentCommit, needsUpdate := false }

/-- One attempted update, mirroring the `UpdateResult` interface of
`src/types.ts`. -/
structure UpdateResult where
  submodule : String
  updated : Bool
  fromCommit : String
  toCommit : String
  error : Option String
deriving DecidableEq, Repr

/-- Oracle for the engine's effectful collaborators: `recCommit path` is
the commit recorded by the parent tree for `path` (`none` = the read
throws, downgraded to the `unknown` sentinel); `syncSubsErr` is the outcome
of `git submodule update --init --recursive`; `initErr`, `checkoutSubErr`
and `commitErr` give, per record path, the outcomes of
`initializeSubmodules`, `updateSubmodule` and `commitSubmoduleUpdate`;
`git` drives the push/sync state machine. -/
structure EngineEnv where
  recCommit : String → Option String
  syncSubsErr : Option String
  initErr : String → Option String
  checkoutSubErr : String → Option String
  commitErr : String → Option String
  git : GitEnv

/-- Resolution phases for one record: read the recorded commit (downgrading
failures to `unknown`), then, only when a GitHub service is configured,
resolve the upstream commit. -/
def resolveOne (ghO : Option GitHubOracle) (env : EngineEnv)
    (s : SubmoduleInfo) : SubmoduleInfo :=
  let s1 := { s with currentCommit := (env.recCommit s.path).getD "unknown" }
  match ghO with
  | some gh => fetchLatestCommitsOne gh s1
  | none => s1

/-- Both resolution phases over the whole record list. -/
def resolvePhase (ghO : Option GitHubOracle) (env : EngineEnv)
    (subs : List SubmoduleInfo) : List SubmoduleInfo :=
  subs.map (resolveOne ghO env)

/-- The update-decision predicate of `SubmoduleUpdater.updateSubmodules`:
`submodule.needsUpdate && submodule.currentCommit !== submodule.latestCommit`. -/
def qualifies (s : SubmoduleInfo) : Bool :=
  s.needsUpdate && (s.currentCommit != s.latestCommit)

/-- `SubmoduleUpdater.updateSingleSubmodule`: initialize submodules, fetch
and checkout the target commit, commit the new binding in the parent tree;
any failure is caught and recorded as an unapplied `UpdateResult`. -/
def updateSingleSubmodule (env : EngineEnv) (s : SubmoduleInfo) :
    List Act × UpdateResult :=
  match env.initErr s.path with
  | some e =>
      ([Act.initSubmodules],
        { submodule := s.path, updated := false, fromCommit := s.currentCommit,
          toCommit := s.latestCommit,
          error := some ("Failed to initialize submodules: " ++ e) })
  | none =>
    match env.checkoutSubErr s.path with
    | some e =>
        ([Act.initSubmodules, Act.fetchCheckout s.path s.latestCommit],
          { submodule := s.path, updated := false,
            fromCommit := s.currentCommit, toCommit := s.latestCommit,
            error := some ("Failed to update submodule " ++ s.path ++ ": " ++ e) })
    | none =>
      match env.commitErr s.path with
      | some e =>
          ([Act.initSubmodules, Act.fetchCheckout s.path s.latestCommit,
            Act.commitUpdate s.path s.currentCommit s.latestCommit],
            { submodule := s.path, updated := false,
              fromCommit := s.currentCommit, toCommit := s.latestCommit,
              error := some ("Failed to commit submodule update: " ++ e) })
      | none =>
          ([Act.initSubmodules, Act.fetchCheckout s.path s.latestCommit,
            Act.commitUpdate s.path s.currentCommit s.latestCommit],
            { submodule := s.path, updated := true,
              fromCommit := s.currentCommit, toCommit := s.latestCommit,
              error := none })

/-- The update loop of `SubmoduleUpdater.updateSubmodules`: every record
passing the update decision contributes exactly one result, in order, and
the loop continues past failures. -/
def applyUpdates (env : EngineEnv) : List SubmoduleInfo →
    List Act × List UpdateResult
  | [] => ([], [])
  | s :: rest =>
    if qualifies s then
      let one := updateSingleSubmodule env s
      let more := applyUpdates env rest
      (one.1 ++ more.1, one.2 :: more.2)
    else applyUpdates env rest

/-- `SubmoduleUpdater.updateSubmodules` after repository initialization and
manifest parsing: an empty manifest short-circuits to an empty result; then
submodule sync, the two resolution phases, the update loop, an optional
remote sync, and an optional push guarded by the presence of an applied
update. -/
def updateSubmodules (ghO : Option GitHubOracle) (env : EngineEnv)
    (repoBranch : Option String) (forcePush skipPush : Bool)
    (subs : List SubmoduleInfo) : List Act × Except String (List UpdateResult) :=
  if subs.isEmpty then ([], .ok [])
  else
    match env.syncSubsErr with
    | some e => ([Act.syncSubmodules], .error ("Failed to sync submodules: " ++ e))
    | none =>
      let resolved := resolvePhase ghO env subs
      let upd := applyUpdates env resolved
      let tr0 := Act.syncSubmodules :: upd.1
      if skipPush then (tr0, .ok upd.2)
      else
        let sync := syncRemoteChanges env.git repoBranch
        match sync.2 with
        | .error e => (tr0 ++ sync.1, .error e)
        | .ok () =>
          if upd.2.any (fun r => r.updated) then
            let push := pushChanges env.git repoBranch forcePush
            match push.2 with
            | .ok () => (tr0 ++ sync.1 ++ push.1, .ok upd.2)
            | .error e => (tr0 ++ sync.1 ++ push.1, .error e)
          else (tr0 ++ sync.1, .ok upd.2)

/-- Effect of one applied update on the parent tree's recorded submodule
commits: a successfully applied outcome rebinds its path to `toCommit`. -/
def applyOutcome (rec : String → Option String) (r : UpdateResult) :
    String → Option String :=
  fun p => if r.updated && (p == r.submodule) then some r.toCommit else rec p

/-- Recorded submodule commits after a run's outcomes have been committed,
later outcomes taking precedence. -/
def recordedAfter (rec : String → Option String) (results : List UpdateResult) :
    String → Option String :=
  results.foldl applyOutcome rec

/-- Oracle for the filesystem and the repository provisioner used by
`SubmoduleUpdater.initializeRepository`: `pathExists`/`dotGitExists` are the
`existsSync` probes, `readDir` the `readdirSync` listing (`Except.error` =
it throws), and `cloneTemp`/`cloneIntoPathRes` the results of
`RepositoryService.cloneRepository` / `cloneRepositoryToPath` (the returned
working-tree path, or a thrown error). -/
structure InitEnv where
  pathExists : String → Bool
  dotGitExists : String → Bool
  readDir : String → Except String (List String)
  cloneTemp : Except String String
  cloneIntoPathRes : Except String String

/-- `SubmoduleUpdater.initializeRepository`: resolve the working tree in
priority order (no path requested → scratch clone or current directory,
returning early; missing path → fatal; non-version-controlled empty path →
remove and clone into it; non-version-controlled non-empty path → scratch
clone; version-controlled path → direct use), configuring the git identity
at the end of every branch that falls through the requested-path flow.
Returns the trace and the final repository path. -/
def initializeRepository (hasGh : Bool) (ienv : InitEnv)
    (repoPath : Option String) : List Act × Except String String :=
  match repoPath with
  | none =>
    if hasGh then
      match ienv.cloneTemp with
      | .ok tempPath => ([Act.cloneToTemp], .ok tempPath)
      | .error e => ([Act.cloneToTemp], .error e)
    else ([], .ok ".")
  | some p =>
    if !ienv.pathExists p then
      ([], .error ("Repository path does not exist: " ++ p))
    else if !ienv.dotGitExists p then
      match ienv.readDir p with
      | .error e => ([], .error e)
      | .ok files =>
        if files.isEmpty then
          if hasGh then
            match ienv.cloneIntoPathRes with
            | .ok path =>
                ([Act.removeDir p, Act.cloneIntoPath p, Act.configureIdentity],
                  .ok path)
            | .error e => ([Act.removeDir p, Act.cloneIntoPath p], .error e)
          else ([Act.removeDir p, Act.configureIdentity], .ok p)
        else
          if hasGh then
            match ienv.cloneTemp with
            | .ok tempPath => ([Act.cloneToTemp, Act.configureIdentity], .ok tempPath)
            | .error e => ([Act.cloneToTemp], .error e)
          else ([Act.configureIdentity], .ok p)
    else ([Act.useLocalRepo p, Act.configureIdentity], .ok p)

/-- A 40-character commit identifier of `a` characters, used as a concrete
`fromCommit` in witnesses. -/
def commitA : String := "aaaaaaaaaaaaaaaaaaaaaaaaaaaaaaaaaaaaaaaa"

/-- A 40-character commit identifier of `b` characters, used as a concrete
`toCommit` in witnesses. -/
def commitB : String := "bbbbbbbbbbbbbbbbbbbbbbbbbbbbbbbbbbbbbbbb"

/-- Concrete git oracle: the first push is rejected non-fast-forward, the
branch is behind, the pull merges cleanly, and the retried push succeeds. -/
def gitEnvRetryOk : GitEnv :=
  { push1 := some "error: failed to push some refs (non-fast-forward)"
    push2 := none
    pushForce := none
    fetchErr := none
    pullErr := none
    resetErr := none
    checkoutErr := none
    statusBranch := some "main"
    revparsePair := some (commitA, commitB) }

/-- Concrete git oracle like `gitEnvRetryOk` but whose retried push is also
rejected. -/
def gitEnvRetryFail : GitEnv :=
  { gitEnvRetryOk with push2 := some "remote hung up" }

/-- Concrete git oracle whose push is rejected with a permission error. -/
def gitEnvPerm : GitEnv :=
  { gitEnvRetryOk with push1 := some "fatal: permission denied for repo" }

/-- Concrete git oracle whose pull fails with a submodule conflict. -/
def gitEnvSubConflict : GitEnv :=
  { gitEnvRetryOk with
      pullErr := some "error: merge conflict in submodule vendor/lib" }

/-- Concrete git oracle whose pull fails for a reason unrelated to
submodules. -/
def gitEnvPullOther : GitEnv :=
  { gitEnvRetryOk with pullErr := some "error: unrelated local changes" }

/-- Concrete filesystem/provisioner oracle for repository initialization
witnesses: every probed path exists, directories read as empty and clones
succeed. -/
def initEnvW : InitEnv :=
  { pathExists := fun _ => true
    dotGitExists := fun _ => false
    readDir := fun _ => .ok []
    cloneTemp := .ok "/tmp/submodule-updater-repo-xyz"
    cloneIntoPathRes := .ok "/srv/repo" }

/-- Filesystem oracle whose requested path is a non-empty directory that is
not version controlled. -/
def initEnvNonEmptyDir : InitEnv :=
  { initEnvW with readDir := fun _ => .ok ["stuff.txt"] }

/-- Filesystem oracle whose requested path is an existing version
controlled working tree. -/
def initEnvGitRepo : InitEnv :=
  { initEnvW with dotGitExists := fun _ => true }

/-- Concrete GitHub oracle whose branch lookups always fail. -/
def ghFailing : GitHubOracle :=
  { branchTip := fun _ _ _ => none
    repoDefaultBranch := fun _ _ => none }

/-- Concrete GitHub oracle serving `commitB` as every branch tip. -/
def ghServingB : GitHubOracle :=
  { branchTip := fun _ _ _ => some commitB
    repoDefaultBranch := fun _ _ => some "main" }

/-- Concrete engine oracle: every recorded commit reads as `commitA` and
every git operation succeeds. -/
def engineEnvOk : EngineEnv :=
  { recCommit := fun _ => some commitA
    syncSubsErr := none
    initErr := fun _ => none
    checkoutSubErr := fun _ => none
    commitErr := fun _ => none
    git := { gitEnvRetryOk with push1 := none, revparsePair := none } }

/-- Engine oracle in which the checkout of the record at path `sub2`
fails. -/
def engineEnvSub2Fails : EngineEnv :=
  { engineEnvOk with
      checkoutSubErr := fun p => if p == "sub2" then some "checkout failed" else none }

/-- A concrete declared submodule record at `path`, tracking branch `dev`
of `foo/bar`, as the parser would produce it. -/
def subAt (path : String) : SubmoduleInfo :=
  { path := path, url := "https://github.com/foo/bar.git", branch := some "dev",
    currentCommit := "", latestCommit := "", needsUpdate := false }

/-- A concrete submodule record whose upstream commit has been resolved to
`commitB` while the parent tree still records `commitA`. -/
def qualSub (path : String) : SubmoduleInfo :=
  { path := path, url := "https://github.com/foo/bar.git", branch := some "dev",
    currentCommit := commitA, latestCommit := commitB, needsUpdate := true }

/-- A one-submodule manifest used by concrete witnesses. -/
def manifestOne : String :=
  "[submodule \x22a\x22]\n\tpath = vendor/lib\n\turl = https://github.com/foo/bar.git\n\tbranch = dev"

/-- Engine oracle for a second run over `manifestOne`: identical to
`engineEnvOk` except that the parent tree now records what the first run
committed. -/
def engineEnvRun2 : EngineEnv :=
  { recCommit := recordedAfter engineEnvOk.recCommit
      (applyUpdates engineEnvOk (resolvePhase (some ghServingB) engineEnvOk
        (parseGitmodulesContent manifestOne))).2
    syncSubsErr := none
    initErr := fun _ => none
    checkoutSubErr := fun _ => none
    commitErr := fun _ => none
    git := engineEnvOk.git }

end GithubSync

namespace GithubSync

theorem linesOf_ne_nil (cs : List Char) : linesOf cs ≠ [] := by
  induction cs with
  | nil => simp [linesOf]
  | cons c rest ih =>
    by_cases h : c = '\n'
    · simp [linesOf, h]
    · simp only [linesOf, if_neg h]
      cases hrec : linesOf rest with
      | nil => simp
      | cons l ls => simp

theorem linesOf_append_newline (a b : List Char) :
    linesOf (a ++ '\n' :: b) = linesOf a ++ linesOf b := by
  induction a with
  | nil => simp [linesOf]
  | cons c rest ih =>
    by_cases h : c = '\n'
    · simp [linesOf, h, ih]
    · cases hrec : linesOf rest with
      | nil => exact absurd hrec (linesOf_ne_nil rest)
      | cons l ls =>
        simp only [List.cons_append, linesOf, if_neg h, ih, hrec, List.append_eq]

theorem linesOf_no_newline (a : List Char) (h : '\n' ∉ a) :
    linesOf a = [a] := by
  induction a with
  | nil => simp [linesOf]
  | cons c rest ih =>
    have hc : c ≠ '\n' := fun hc => h (hc ▸ List.mem_cons_self c rest)
    have hrest : '\n' ∉ rest := fun hr => h (List.mem_cons_of_mem c hr)
    simp [linesOf, hc, ih hrest]

theorem buildCommitMessage_toList (syncMsg path fromCommit toCommit : String) :
    (buildCommitMessage syncMsg path fromCommit toCommit).toList =
      syncMsg.toList ++ '\n' ::
        ('\n' :: (("Update submodule " ++ path).toList ++ '\n' ::
          (("- From: " ++ fromCommit).toList ++ '\n' ::
            ("- To: " ++ toCommit).toList))) := by
  simp [buildCommitMessage, String.toList, ← String.data_append]
  simp [String.data_append]

theorem linesOf_newline_cons (b : List Char) :
    linesOf ('\n' :: b) = [] :: linesOf b := by
  simp [linesOf]

/-- C1 counterexample: at `fromCommit = commitA`, `toCommit = commitB`,
`path = "vendor/lib"` the produced commit message has no line equal to
`From: <fromCommit>`; the actual lines carry a `- ` marker
(`- From: <fromCommit>`, `- To: <toCommit>`). -/
theorem c1_from_line_counterexample :
    ("From: " ++ commitA).toList ∉
        linesOf (buildCommitMessage "Initial commit" "vendor/lib" commitA commitB).toList ∧
    ("- From: " ++ commitA).toList ∈
        linesOf (buildCommitMessage "Initial commit" "vendor/lib" commitA commitB).toList ∧
    ("To: " ++ commitB).toList ∉
        linesOf (buildCommitMessage "Initial commit" "vendor/lib" commitA commitB).toList ∧
    ("- To: " ++ commitB).toList ∈
        linesOf (buildCommitMessage "Initial commit" "vendor/lib" commitA commitB).toList := by
  refine ⟨by decide, by decide, by decide, by decide⟩

/-- C1 (amended): the commit message produced by `commitSubmoduleUpdate` is
a deterministic function of the repository's latest commit message, the
path and the two full commit identifiers; its lines are exactly the lines
of the latest commit message followed by a blank line,
`Update submodule <path>`, `- From: <fromCommit>` and `- To: <toCommit>`,
the identifiers untruncated. -/
theorem c1_commit_message_lines (syncMsg path fromCommit toCommit : String)
    (hp : '\n' ∉ path.toList) (hf : '\n' ∉ fromCommit.toList)
    (ht : '\n' ∉ toCommit.toList) :
    linesOf (buildCommitMessage syncMsg path fromCommit toCommit).toList =
      linesOf syncMsg.toList ++
        [[], ("Update submodule " ++ path).toList,
          ("- From: " ++ fromCommit).toList, ("- To: " ++ toCommit).toList] := by
  have hupd : '\n' ∉ ("Update submodule " ++ path).toList := by
    simp only [String.toList, String.data_append, List.mem_append, not_or]
    exact ⟨by decide, hp⟩
  have hfrom : '\n' ∉ ("- From: " ++ fromCommit).toList := by
    simp only [String.toList, String.data_append, List.mem_append, not_or]
    exact ⟨by decide, hf⟩
  have hto : '\n' ∉ ("- To: " ++ toCommit).toList := by
    simp only [String.toList, String.data_append, List.mem_append, not_or]
    exact ⟨by decide, ht⟩
  rw [buildCommitMessage_toList, linesOf_append_newline, linesOf_newline_cons,
    linesOf_append_newline, linesOf_append_newline,
    linesOf_no_newline _ hupd, linesOf_no_newline _ hfrom, linesOf_no_newline _ hto]
  simp

/-- C1 witness: the amended line structure evaluated at the concrete
round-trip inputs of the claim. -/
theorem c1_commit_message_lines_witness :
    linesOf (buildCommitMessage "Initial commit" "vendor/lib" commitA commitB).toList =
      linesOf "Initial commit".toList ++
        [[], ("Update submodule " ++ "vendor/lib").toList,
          ("- From: " ++ commitA).toList, ("- To: " ++ commitB).toList] :=
  c1_commit_message_lines "Initial commit" "vendor/lib" commitA commitB
    (by decide) (by decide) (by decide)

example : strContains "push rejected: fetch first" "fetch first" = true := by decide
example : strContains "permission denied (publickey)" "non-fast-forward" = false := by
  decide
example : extractGitHubInfo "https://github.com/foo/bar.git" = some ("foo", "bar") := by
  decide
example : extractGitHubInfo "git@github.com:foo/bar" = some ("foo", "bar") := by decide
example : extractGitHubInfo "https://example.com/foo/bar" = none := by decide
example :
    parseGitmodulesContent manifestOne =
      [{ path := "vendor/lib", url := "https://github.com/foo/bar.git",
         branch := some "dev", currentCommit := "", latestCommit := "",
         needsUpdate := false }] := by decide
example : parseGitmodulesContent "[submodule \x22a\x22]\n\tpath = vendor/lib" = [] := by
  decide

theorem pullAndMergeBody_acts (g : GitEnv) (tb : String) (tr : List Act)
    (htr : ∀ x ∈ tr, isPushAct x = false ∧ isCommitAct x = false) :
    ∀ a ∈ (pullAndMergeBody g tb tr).1,
      isPushAct a = false ∧ isCommitAct a = false := by
  intro a ha
  unfold pullAndMergeBody at ha
  split at ha
  · rcases List.mem_append.mp ha with h | h
    · exact htr a h
    · rcases List.mem_cons.mp h with h' | h'
      · subst h'; exact ⟨rfl, rfl⟩
      · exact absurd h' (List.not_mem_nil a)
  · split at ha
    · split at ha
      · rcases List.mem_append.mp ha with h | h
        · exact htr a h
        · rcases List.mem_cons.mp h with h' | h'
          · subst h'; exact ⟨rfl, rfl⟩
          · rcases List.mem_cons.mp h' with h'' | h''
            · subst h''; exact ⟨rfl, rfl⟩
            · exact absurd h'' (List.not_mem_nil a)
      · rcases List.mem_append.mp ha with h | h
        · exact htr a h
        · rcases List.mem_cons.mp h with h' | h'
          · subst h'; exact ⟨rfl, rfl⟩
          · rcases List.mem_cons.mp h' with h'' | h''
            · subst h''; exact ⟨rfl, rfl⟩
            · exact absurd h'' (List.not_mem_nil a)
    · rcases List.mem_append.mp ha with h | h
      · exact htr a h
      · rcases List.mem_cons.mp h with h' | h'
        · subst h'; exact ⟨rfl, rfl⟩
        · exact absurd h' (List.not_mem_nil a)

theorem pullAndMerge_acts (g : GitEnv) (b : Option String) :
    ∀ a ∈ (pullAndMerge g b).1, isPushAct a = false ∧ isCommitAct a = false := by
  intro a ha
  simp only [pullAndMerge] at ha
  split at ha
  · split at ha
    · rcases List.mem_cons.mp ha with h' | h'
      · subst h'; exact ⟨rfl, rfl⟩
      · exact absurd h' (List.not_mem_nil a)
    · refine pullAndMergeBody_acts g (b.getD "main") _ ?_ a ha
      intro x hx
      rcases List.mem_cons.mp hx with h' | h'
      · subst h'; exact ⟨rfl, rfl⟩
      · exact absurd h' (List.not_mem_nil x)
  · exact pullAndMergeBody_acts g (b.getD "main") []
      (fun x hx => absurd hx (List.not_mem_nil x)) a ha

theorem countPushAttempts_pullAndMerge (g : GitEnv) (b : Option String) :
    countPushAttempts (pullAndMerge g b).1 = 0 :=
  List.countP_eq_zero.mpr fun a ha => by
    simp [(pullAndMerge_acts g b a ha).1]

/-- C2: when a non-forced push is rejected with a remote-ahead error, the
service fetches origin, runs pull-and-merge, and retries the push exactly
once; the retried push's success decides the overall outcome and its
failure propagates with no further retry. -/
theorem c2_push_retry_once (g : GitEnv) (branch : Option String) (e : String)
    (h1 : g.push1 = some e) (hra : isRemoteAheadError e = true)
    (hf : g.fetchErr = none)
    (hpm : (pullAndMerge g (some (branch.getD "main"))).2 = .ok ()) :
    (pushChanges g branch false).1 =
      Act.pushAttempt (branch.getD "main") false :: Act.fetchOrigin ::
        ((pullAndMerge g (some (branch.getD "main"))).1 ++
          [Act.pushAttempt (branch.getD "main") false]) ∧
    countPushAttempts (pushChanges g branch false).1 = 2 ∧
    ((pushChanges g branch false).2 = .ok () ↔ g.push2 = none) ∧
    (∀ e2, g.push2 = some e2 →
      (pushChanges g branch false).2 = .error (wrapPush e2)) := by
  cases hp2 : g.push2 with
  | none =>
    have hbase : pushChanges g branch false =
        (Act.pushAttempt (branch.getD "main") false :: Act.fetchOrigin ::
          ((pullAndMerge g (some (branch.getD "main"))).1 ++
            [Act.pushAttempt (branch.getD "main") false]), .ok ()) := by
      simp only [pushChanges, h1, hf, hra, Bool.false_eq_true, if_false, if_true]
      rw [hpm, hp2]
    have ht1 : (pushChanges g branch false).1 =
        Act.pushAttempt (branch.getD "main") false :: Act.fetchOrigin ::
          ((pullAndMerge g (some (branch.getD "main"))).1 ++
            [Act.pushAttempt (branch.getD "main") false]) := by rw [hbase]
    refine ⟨ht1, ?_, by rw [hbase]; simp [hp2], ?_⟩
    · rw [ht1]
      have h0 := countPushAttempts_pullAndMerge g (some (branch.getD "main"))
      simp only [countPushAttempts] at h0 ⊢
      simp [List.countP_cons, List.countP_append, h0, isPushAct]
    · intro e2 he2
      exact Option.noConfusion he2
  | some e2 =>
    have hbase : pushChanges g branch false =
        (Act.pushAttempt (branch.getD "main") false :: Act.fetchOrigin ::
          ((pullAndMerge g (some (branch.getD "main"))).1 ++
            [Act.pushAttempt (branch.getD "main") false]),
          .error (wrapPush e2)) := by
      simp only [pushChanges, h1, hf, hra, Bool.false_eq_true, if_false, if_true]
      rw [hpm, hp2]
    have ht1 : (pushChanges g branch false).1 =
        Act.pushAttempt (branch.getD "main") false :: Act.fetchOrigin ::
          ((pullAndMerge g (some (branch.getD "main"))).1 ++
            [Act.pushAttempt (branch.getD "main") false]) := by rw [hbase]
    refine ⟨ht1, ?_, ?_, ?_⟩
    · rw [ht1]
      have h0 := countPushAttempts_pullAndMerge g (some (branch.getD "main"))
      simp only [countPushAttempts] at h0 ⊢
      simp [List.countP_cons, List.countP_append, h0, isPushAct]
    · rw [hbase]
      simp [hp2]
    · intro e2' he2'
      injection he2' with h
      subst h
      rw [hbase]

/-- C2 witness: the retry scenario at concrete oracles — a non-fast-forward
rejection followed by a clean merge; the retried push succeeding ends in
success, the retried push failing surfaces the second error, with exactly
two push attempts either way. -/
theorem c2_push_retry_once_witness :
    ((pushChanges gitEnvRetryOk (some "main") false).2 = .ok () ∧
      countPushAttempts (pushChanges gitEnvRetryOk (some "main") false).1 = 2) ∧
    ((pushChanges gitEnvRetryFail (some "main") false).2 =
        .error (wrapPush "remote hung up") ∧
      countPushAttempts (pushChanges gitEnvRetryFail (some "main") false).1 = 2) := by
  have hA := c2_push_retry_once gitEnvRetryOk (some "main")
    "error: failed to push some refs (non-fast-forward)" rfl (by decide) rfl rfl
  have hB := c2_push_retry_once gitEnvRetryFail (some "main")
    "error: failed to push some refs (non-fast-forward)" rfl (by decide) rfl rfl
  exact ⟨⟨hA.2.2.1.mpr rfl, hA.2.1⟩, ⟨hB.2.2.2 "remote hung up" rfl, hB.2.1⟩⟩

/-- C5: a push rejection not classified remote-ahead fails immediately —
one push attempt, no fetch/pull/reset and no retry in the trace — and the
surfaced error is the specific guidance text for permission-denied,
repository-not-found or protected-branch rejections. -/
theorem c5_push_classified_fail (g : GitEnv) (branch : Option String) (e : String)
    (h1 : g.push1 = some e) (hra : isRemoteAheadError e = false) :
    (pushChanges g branch false).1 = [Act.pushAttempt (branch.getD "main") false] ∧
    (pushChanges g branch false).2 =
      .error (wrapPush (handlePushError e (branch.getD "main"))) ∧
    ((strContains e "permission denied" || strContains e "access denied") = true →
      handlePushError e (branch.getD "main") =
        "Permission denied pushing to repository. Please check your credentials and access rights.") ∧
    ((strContains e "permission denied" || strContains e "access denied") = false →
      strContains e "repository not found" = true →
      handlePushError e (branch.getD "main") =
        "Repository not found. Please check the remote URL and repository name.") ∧
    ((strContains e "permission denied" || strContains e "access denied") = false →
      strContains e "repository not found" = false →
      strContains e "protected branch" = true →
      handlePushError e (branch.getD "main") =
        "Branch \x27" ++ branch.getD "main" ++
          "\x27 is protected and cannot be pushed to directly. " ++
          "Please use a pull request or contact repository administrators.") := by
  refine ⟨?_, ?_, ?_, ?_, ?_⟩
  · simp only [pushChanges, h1, hra, Bool.false_eq_true, if_false]
  · simp only [pushChanges, h1, hra, Bool.false_eq_true, if_false]
  · intro hp
    simp [handlePushError, hp]
  · intro hp hr
    simp [handlePushError, hp, hr]
  · intro hp hr hb
    simp [handlePushError, hp, hr, hb]

theorem syncRemoteChanges_acts (g : GitEnv) (b : Option String) :
    ∀ a ∈ (syncRemoteChanges g b).1,
      isPushAct a = false ∧ isCommitAct a = false := by
  intro a ha
  unfold syncRemoteChanges at ha
  split at ha
  · rcases List.mem_cons.mp ha with h' | h'
    · subst h'; exact ⟨rfl, rfl⟩
    · exact absurd h' (List.not_mem_nil a)
  · split at ha
    · split at ha
      · rcases List.mem_cons.mp ha with h' | h'
        · subst h'; exact ⟨rfl, rfl⟩
        · rcases List.mem_cons.mp h' with h'' | h''
          · subst h''; exact ⟨rfl, rfl⟩
          · exact absurd h'' (List.not_mem_nil a)
      · split at ha
        · split at ha
          all_goals
            rcases List.mem_cons.mp ha with h' | h'
          · subst h'; exact ⟨rfl, rfl⟩
          · rcases List.mem_cons.mp h' with h'' | h''
            · subst h''; exact ⟨rfl, rfl⟩
            · rcases List.mem_cons.mp h'' with h3 | h3
              · subst h3; exact ⟨rfl, rfl⟩
              · exact absurd h3 (List.not_mem_nil a)
          · subst h'; exact ⟨rfl, rfl⟩
          · rcases List.mem_cons.mp h' with h'' | h''
            · subst h''; exact ⟨rfl, rfl⟩
            · rcases List.mem_cons.mp h'' with h3 | h3
              · subst h3; exact ⟨rfl, rfl⟩
              · exact absurd h3 (List.not_mem_nil a)
        · rcases List.mem_cons.mp ha with h' | h'
          · subst h'; exact ⟨rfl, rfl⟩
          · rcases List.mem_cons.mp h' with h'' | h''
            · subst h''; exact ⟨rfl, rfl⟩
            · exact absurd h'' (List.not_mem_nil a)
    · rcases List.mem_cons.mp ha with h' | h'
      · subst h'; exact ⟨rfl, rfl⟩
      · exact absurd h' (List.not_mem_nil a)

/-- C8: when the local branch is behind the remote and the pull fails, a
failure mentioning a submodule conflict is recovered by hard-resetting the
branch to `origin/<branch>` and the sync succeeds, while any other pull
failure propagates to the caller and no hard reset happens. -/
theorem c8_sync_submodule_conflict (g : GitEnv) (branch : Option String)
    (e : String) (hf : g.fetchErr = none) (hb : isBehindRemote g = true)
    (hp : g.pullErr = some e) :
    (strContains e "submodule" = true → g.resetErr = none →
      (syncRemoteChanges g branch).2 = .ok () ∧
      Act.hardReset ("origin/" ++ branch.getD "main") ∈
        (syncRemoteChanges g branch).1) ∧
    (strContains e "submodule" = false →
      (syncRemoteChanges g branch).2 = .error (wrapSync e) ∧
      Act.hardReset ("origin/" ++ branch.getD "main") ∉
        (syncRemoteChanges g branch).1) := by
  constructor
  · intro hs hr
    have hval : syncRemoteChanges g branch =
        ([Act.fetchOrigin, Act.pullNoRebase (branch.getD "main"),
          Act.hardReset ("origin/" ++ branch.getD "main")], .ok ()) := by
      simp only [syncRemoteChanges, hf, hb, hp, hs, hr, if_true]
    rw [hval]
    exact ⟨rfl, by simp⟩
  · intro hs
    have hval : syncRemoteChanges g branch =
        ([Act.fetchOrigin, Act.pullNoRebase (branch.getD "main")],
          .error (wrapSync e)) := by
      simp only [syncRemoteChanges, hf, hb, hp, hs, Bool.false_eq_true,
        if_false, if_true]
    rw [hval]
    refine ⟨rfl, by simp⟩

/-- C8 witness: a behind-remote pull failing on a submodule conflict is
recovered by a hard reset and succeeds, while an unrelated pull failure
propagates, at concrete oracles. -/
theorem c8_sync_submodule_conflict_witness :
    ((syncRemoteChanges gitEnvSubConflict (some "main")).2 = .ok () ∧
      Act.hardReset "origin/main" ∈
        (syncRemoteChanges gitEnvSubConflict (some "main")).1) ∧
    ((syncRemoteChanges gitEnvPullOther (some "main")).2 =
        .error (wrapSync "error: unrelated local changes") ∧
      Act.hardReset "origin/main" ∉
        (syncRemoteChanges gitEnvPullOther (some "main")).1) := by
  have hA := c8_sync_submodule_conflict gitEnvSubConflict (some "main")
    "error: merge conflict in submodule vendor/lib" rfl (by decide) rfl
  have hB := c8_sync_submodule_conflict gitEnvPullOther (some "main")
    "error: unrelated local changes" rfl (by decide) rfl
  exact ⟨hA.1 (by decide) rfl, hB.2 (by decide)⟩

/-- C3 counterexample: with no requested path and a configured GitHub
remote, initialization provisions the scratch clone and returns without
configuring the commit identity, contradicting the claim that identity is
configured after a no-path scratch clone. -/
theorem c3_no_identity_counterexample :
    (initializeRepository true initEnvW none).1 = [Act.cloneToTemp] ∧
    Act.configureIdentity ∉ (initializeRepository true initEnvW none).1 := by
  exact ⟨rfl, by decide⟩

/-- C3 (amended): commit identity is configured at the end of every branch
of the requested-path flow — cloning into an empty requested path, falling
back to a scratch clone for a non-empty non-version-controlled path, and
also the direct use of an existing version-controlled tree — whereas the
no-path branch returns its scratch clone (or the current directory)
without configuring identity there (identity is instead configured by
`commitSubmoduleUpdate` before each commit). -/
theorem c3_identity_placement (ienv : InitEnv) (p tmp q : String) :
    (ienv.pathExists p = true → ienv.dotGitExists p = false →
      ienv.readDir p = .ok [] → ienv.cloneIntoPathRes = .ok q →
      (initializeRepository true ienv (some p)).1 =
        [Act.removeDir p, Act.cloneIntoPath p, Act.configureIdentity]) ∧
    (ienv.pathExists p = true → ienv.dotGitExists p = false →
      ∀ files, ienv.readDir p = .ok files → files ≠ [] →
      ienv.cloneTemp = .ok tmp →
      (initializeRepository true ienv (some p)).1 =
        [Act.cloneToTemp, Act.configureIdentity]) ∧
    (ienv.pathExists p = true → ienv.dotGitExists p = true →
      ∀ hasGh, (initializeRepository hasGh ienv (some p)).1 =
        [Act.useLocalRepo p, Act.configureIdentity]) ∧
    (∀ hasGh, Act.configureIdentity ∉
      (initializeRepository hasGh ienv none).1) := by
  refine ⟨?_, ?_, ?_, ?_⟩
  · intro hex hgit hrd hcl
    simp only [initializeRepository, hex, hgit, hrd, hcl, Bool.not_true,
      Bool.not_false, Bool.false_eq_true, if_false, if_true, List.isEmpty_nil]
  · intro hex hgit files hrd hne hcl
    cases files with
    | nil => exact absurd rfl hne
    | cons f fs =>
      simp only [initializeRepository, hex, hgit, hrd, hcl, Bool.not_true,
        Bool.not_false, Bool.false_eq_true, if_false, if_true,
        List.isEmpty_cons]
  · intro hex hgit hasGh
    simp only [initializeRepository, hex, hgit, Bool.not_true,
      Bool.false_eq_true, if_false]
  · intro hasGh
    cases hasGh with
    | true =>
      simp only [initializeRepository, if_true]
      cases h : ienv.cloneTemp with
      | ok t => simp [h]
      | error e => simp [h]
    | false => simp [initializeRepository]

/-- C3 witness: the amended identity placement evaluated at concrete
filesystem oracles for each provisioning branch. -/
theorem c3_identity_placement_witness :
    (initializeRepository true initEnvW (some "/srv/repo")).1 =
      [Act.removeDir "/srv/repo", Act.cloneIntoPath "/srv/repo",
        Act.configureIdentity] ∧
    (initializeRepository true initEnvNonEmptyDir (some "/srv/repo")).1 =
      [Act.cloneToTemp, Act.configureIdentity] ∧
    (initializeRepository false initEnvGitRepo (some "/srv/repo")).1 =
      [Act.useLocalRepo "/srv/repo", Act.configureIdentity] ∧
    Act.configureIdentity ∉ (initializeRepository true initEnvW none).1 := by
  refine ⟨?_, ?_, ?_, ?_⟩
  · exact (c3_identity_placement initEnvW "/srv/repo" "t" "/srv/repo").1
      rfl rfl rfl rfl
  · exact (c3_identity_placement initEnvNonEmptyDir "/srv/repo"
      "/tmp/submodule-updater-repo-xyz" "q").2.1 rfl rfl ["stuff.txt"] rfl
      (by decide) rfl
  · exact (c3_identity_placement initEnvGitRepo "/srv/repo" "t" "q").2.2.1
      rfl rfl false
  · exact (c3_identity_placement initEnvW "p" "t" "q").2.2.2 true

/-- C5 witness: a permission-denied rejection at a concrete oracle fails at
once with the credentials guidance and a single push attempt. -/
theorem c5_push_classified_fail_witness :
    (pushChanges gitEnvPerm (some "main") false).1 =
      [Act.pushAttempt "main" false] ∧
    (pushChanges gitEnvPerm (some "main") false).2 =
      .error (wrapPush
        "Permission denied pushing to repository. Please check your credentials and access rights.") := by
  have h := c5_push_classified_fail gitEnvPerm (some "main")
    "fatal: permission denied for repo" rfl (by decide)
  refine ⟨h.1, ?_⟩
  rw [h.2.1, h.2.2.1 (by decide)]

theorem applyUpdates_eq_filterMap (env : EngineEnv) (subs : List SubmoduleInfo) :
    (applyUpdates env subs).2 = subs.filterMap
      (fun s => if qualifies s then some (updateSingleSubmodule env s).2 else none) := by
  induction subs with
  | nil => rfl
  | cons s rest ih =>
    by_cases hq : qualifies s = true
    · simp [applyUpdates, hq, ih]
    · simp only [Bool.not_eq_true] at hq
      simp [applyUpdates, hq, ih]

theorem applyUpdates_append (env : EngineEnv) (a b : List SubmoduleInfo) :
    (applyUpdates env (a ++ b)).2 =
      (applyUpdates env a).2 ++ (applyUpdates env b).2 := by
  simp [applyUpdates_eq_filterMap]

theorem applyUpdates_of_no_qual (env : EngineEnv) (l : List SubmoduleInfo)
    (h : ∀ s ∈ l, qualifies s = false) : applyUpdates env l = ([], []) := by
  induction l with
  | nil => rfl
  | cons s rest ih =>
    have hs := h s (List.mem_cons_self s rest)
    simp [applyUpdates, hs, ih fun x hx => h x (List.mem_cons_of_mem s hx)]

/-- C4: when a record's upstream resolution fails, the resolution phase
copies the recorded commit into the upstream slot and clears the update
flag, the record no longer passes the update decision, and the update loop
over any surrounding records proceeds as if the record were absent. -/
theorem c4_resolution_failsafe (gh : GitHubOracle) (env : EngineEnv)
    (s : SubmoduleInfo) (owner repo e : String)
    (hurl : extractGitHubInfo s.url = some (owner, repo))
    (hfail : getLatestCommit gh owner repo (branchFor gh s owner repo) = .error e) :
    (fetchLatestCommitsOne gh s).latestCommit = s.currentCommit ∧
    (fetchLatestCommitsOne gh s).needsUpdate = false ∧
    qualifies (fetchLatestCommitsOne gh s) = false ∧
    ∀ pre post,
      (applyUpdates env (pre ++ fetchLatestCommitsOne gh s :: post)).2 =
        (applyUpdates env pre).2 ++ (applyUpdates env post).2 := by
  have hres : fetchLatestCommitsOne gh s =
      { s with latestCommit := s.currentCommit, needsUpdate := false } := by
    simp only [fetchLatestCommitsOne, hurl, hfail]
  have hq : qualifies (fetchLatestCommitsOne gh s) = false := by
    rw [hres]; simp [qualifies]
  refine ⟨by rw [hres], by rw [hres], hq, ?_⟩
  intro pre post
  have h2 : applyUpdates env (fetchLatestCommitsOne gh s :: post) =
      applyUpdates env post := by
    simp [applyUpdates, hq]
  rw [applyUpdates_append, h2]

/-- C4 witness: at a concrete always-failing GitHub oracle the record's
upstream slot equals its recorded commit, the update flag is cleared, and
the update loop produces no outcome for it. -/
theorem c4_resolution_failsafe_witness :
    (fetchLatestCommitsOne ghFailing (subAt "vendor/lib")).needsUpdate = false ∧
    (fetchLatestCommitsOne ghFailing (subAt "vendor/lib")).latestCommit =
      (subAt "vendor/lib").currentCommit ∧
    (applyUpdates engineEnvOk
        [fetchLatestCommitsOne ghFailing (subAt "vendor/lib")]).2 = [] := by
  have h := c4_resolution_failsafe ghFailing engineEnvOk (subAt "vendor/lib")
    "foo" "bar" "Failed to get latest commit for foo/bar" (by decide) rfl
  refine ⟨h.2.1, h.1, ?_⟩
  simpa using h.2.2.2 [] []

theorem length_filterMap_qual (f : SubmoduleInfo → UpdateResult)
    (subs : List SubmoduleInfo) :
    (subs.filterMap (fun s => if qualifies s then some (f s) else none)).length =
      (subs.filter qualifies).length := by
  induction subs with
  | nil => rfl
  | cons s rest ih =>
    by_cases hq : qualifies s = true
    · simp [hq, ih]
    · simp only [Bool.not_eq_true] at hq
      simp [hq, ih]

/-- C7: the update loop yields exactly one outcome, in order, for each
record passing the update decision (`updateRequired` and a genuine commit
difference) and none for any other; a record's outcome depends only on that
record and its own operations' results, so one record's failure cannot
alter another's outcome, and the loop continues past failures. -/
theorem c7_partial_isolation (env env' : EngineEnv) (subs : List SubmoduleInfo) :
    (applyUpdates env subs).2 = subs.filterMap
      (fun s => if qualifies s then some (updateSingleSubmodule env s).2 else none) ∧
    (applyUpdates env subs).2.length = (subs.filter qualifies).length ∧
    (∀ s, env.initErr s.path = env'.initErr s.path →
      env.checkoutSubErr s.path = env'.checkoutSubErr s.path →
      env.commitErr s.path = env'.commitErr s.path →
      (updateSingleSubmodule env s).2 = (updateSingleSubmodule env' s).2) := by
  refine ⟨applyUpdates_eq_filterMap env subs, ?_, ?_⟩
  · rw [applyUpdates_eq_filterMap]
    exact length_filterMap_qual _ subs
  · intro s h1 h2 h3
    unfold updateSingleSubmodule
    rw [h1, h2, h3]

/-- C7 witness: three qualifying records where the second record's checkout
fails — the run still yields one outcome per record and the first and third
succeed untouched by the middle failure. -/
theorem c7_partial_isolation_witness :
    (applyUpdates engineEnvSub2Fails
        [qualSub "sub1", qualSub "sub2", qualSub "sub3"]).2 =
      [{ submodule := "sub1", updated := true, fromCommit := commitA,
         toCommit := commitB, error := none },
       { submodule := "sub2", updated := false, fromCommit := commitA,
         toCommit := commitB,
         error := some "Failed to update submodule sub2: checkout failed" },
       { submodule := "sub3", updated := true, fromCommit := commitA,
         toCommit := commitB, error := none }] := by
  rw [(c7_partial_isolation engineEnvSub2Fails engineEnvSub2Fails
    [qualSub "sub1", qualSub "sub2", qualSub "sub3"]).1]
  decide

/-- C9: a manifest yielding zero well-formed submodule entries makes the
run return successfully with an empty outcome sequence and an empty
side-effect trace — no commit and no push. -/
theorem c9_empty_manifest (content : String) (ghO : Option GitHubOracle)
    (env : EngineEnv) (repoBranch : Option String) (forcePush skipPush : Bool)
    (h : parseGitmodulesContent content = []) :
    updateSubmodules ghO env repoBranch forcePush skipPush
      (parseGitmodulesContent content) = ([], .ok []) := by
  rw [h]
  rfl

/-- C9 witness: a manifest whose only section lacks a `path` key parses to
zero records and the run returns empty with no side effects. -/
theorem c9_empty_manifest_witness :
    updateSubmodules none engineEnvOk (some "main") false false
      (parseGitmodulesContent
        "[submodule \x22a\x22]\n\turl = https://github.com/foo/bar.git") =
      ([], .ok []) :=
  c9_empty_manifest "[submodule \x22a\x22]\n\turl = https://github.com/foo/bar.git"
    none engineEnvOk (some "main") false false (by decide)

theorem stepLine_acc_cases (st : ParseState) (line : List Char) :
    (stepLine st line).acc = st.acc ∨
    (stepLine st line).acc = st.acc ++ [draftToInfo st.draft] := by
  simp only [stepLine]
  repeat' split
  all_goals first | (left; rfl) | (right; rfl)

theorem parse_records_init (content : String) :
    ∀ s ∈ parseGitmodulesContent content,
      s.needsUpdate = false ∧ s.latestCommit = "" ∧ s.currentCommit = "" := by
  have hstep : ∀ (st : ParseState) (line : List Char),
      (∀ s ∈ st.acc,
        s.needsUpdate = false ∧ s.latestCommit = "" ∧ s.currentCommit = "") →
      ∀ s ∈ (stepLine st line).acc,
        s.needsUpdate = false ∧ s.latestCommit = "" ∧ s.currentCommit = "" := by
    intro st line h s hs
    rcases stepLine_acc_cases st line with hc | hc
    · rw [hc] at hs; exact h s hs
    · rw [hc] at hs
      rcases List.mem_append.mp hs with h' | h'
      · exact h s h'
      · rcases List.mem_cons.mp h' with h'' | h''
        · subst h''; exact ⟨rfl, rfl, rfl⟩
        · exact absurd h'' (List.not_mem_nil s)
  have hfold : ∀ (lines : List (List Char)) (st : ParseState),
      (∀ s ∈ st.acc,
        s.needsUpdate = false ∧ s.latestCommit = "" ∧ s.currentCommit = "") →
      ∀ s ∈ (lines.foldl stepLine st).acc,
        s.needsUpdate = false ∧ s.latestCommit = "" ∧ s.currentCommit = "" := by
    intro lines
    induction lines with
    | nil => intro st h; exact h
    | cons l rest ih => intro st h; exact ih _ (hstep st l h)
  intro s hs
  simp only [parseGitmodulesContent] at hs
  have hacc := hfold (linesOf content.toList)
    { inSub := false, draft := { path := none, url := none, branch := none },
      acc := [] } (fun x hx => absurd hx (List.not_mem_nil x))
  split at hs
  · rcases List.mem_append.mp hs with h' | h'
    · exact hacc s h'
    · rcases List.mem_cons.mp h' with h'' | h''
      · subst h''; exact ⟨rfl, rfl, rfl⟩
      · exact absurd h'' (List.not_mem_nil s)
  · exact hacc s hs

/-- C10: constructed without a GitHub token the engine skips the
upstream-resolution phase, every record of any manifest keeps `needsUpdate`
false after resolution, any normally returning run yields an empty outcome
list, and the trace never contains a parent-tree commit or a push
attempt. -/
theorem c10_no_token_no_op (content : String) (env : EngineEnv)
    (repoBranch : Option String) (forcePush skipPush : Bool) :
    (∀ s ∈ resolvePhase none env (parseGitmodulesContent content),
      s.needsUpdate = false) ∧
    (∀ res, (updateSubmodules none env repoBranch forcePush skipPush
        (parseGitmodulesContent content)).2 = .ok res → res = []) ∧
    (∀ a ∈ (updateSubmodules none env repoBranch forcePush skipPush
        (parseGitmodulesContent content)).1,
      isCommitAct a = false ∧ isPushAct a = false) := by
  have hinit := parse_records_init content
  have hres : ∀ s ∈ resolvePhase none env (parseGitmodulesContent content),
      s.needsUpdate = false := by
    intro s' hs'
    rcases List.mem_map.mp hs' with ⟨s, hs, rfl⟩
    exact (hinit s hs).1
  have hq : ∀ s ∈ resolvePhase none env (parseGitmodulesContent content),
      qualifies s = false := by
    intro s' hs'
    simp [qualifies, hres s' hs']
  have hau := applyUpdates_of_no_qual env _ hq
  refine ⟨hres, ?_⟩
  by_cases hemp : (parseGitmodulesContent content).isEmpty = true
  · have hval : updateSubmodules none env repoBranch forcePush skipPush
        (parseGitmodulesContent content) = ([], .ok []) := by
      simp [updateSubmodules, hemp]
    rw [hval]
    refine ⟨?_, ?_⟩
    · intro res h
      injection h with h'
      exact h'.symm
    · intro a ha
      exact absurd ha (List.not_mem_nil a)
  · cases hse : env.syncSubsErr with
    | some e =>
      have hval : updateSubmodules none env repoBranch forcePush skipPush
          (parseGitmodulesContent content) =
          ([Act.syncSubmodules], .error ("Failed to sync submodules: " ++ e)) := by
        simp [updateSubmodules, hemp, hse]
      rw [hval]
      refine ⟨?_, ?_⟩
      · intro res h
        exact Except.noConfusion h
      · intro a ha
        rcases List.mem_cons.mp ha with h' | h'
        · subst h'; exact ⟨rfl, rfl⟩
        · exact absurd h' (List.not_mem_nil a)
    | none =>
      cases skipPush with
      | true =>
        have hval : updateSubmodules none env repoBranch forcePush true
            (parseGitmodulesContent content) =
            ([Act.syncSubmodules], .ok []) := by
          simp [updateSubmodules, hemp, hse, hau]
        rw [hval]
        refine ⟨?_, ?_⟩
        · intro res h
          injection h with h'
          exact h'.symm
        · intro a ha
          rcases List.mem_cons.mp ha with h' | h'
          · subst h'; exact ⟨rfl, rfl⟩
          · exact absurd h' (List.not_mem_nil a)
      | false =>
        cases hsy : (syncRemoteChanges env.git repoBranch).2 with
        | error e =>
          have hval : updateSubmodules none env repoBranch forcePush false
              (parseGitmodulesContent content) =
              (Act.syncSubmodules :: (syncRemoteChanges env.git repoBranch).1,
                .error e) := by
            simp [updateSubmodules, hemp, hse, hau, hsy]
          rw [hval]
          refine ⟨?_, ?_⟩
          · intro res h
            exact Except.noConfusion h
          · intro a ha
            rcases List.mem_cons.mp ha with h' | h'
            · subst h'; exact ⟨rfl, rfl⟩
            · have hsync := syncRemoteChanges_acts env.git repoBranch a h'
              exact ⟨hsync.2, hsync.1⟩
        | ok u =>
          cases u
          have hval : updateSubmodules none env repoBranch forcePush false
              (parseGitmodulesContent content) =
              (Act.syncSubmodules :: (syncRemoteChanges env.git repoBranch).1,
                .ok []) := by
            simp [updateSubmodules, hemp, hse, hau, hsy]
          rw [hval]
          refine ⟨?_, ?_⟩
          · intro res h
            injection h with h'
            exact h'.symm
          · intro a ha
            rcases List.mem_cons.mp ha with h' | h'
            · subst h'; exact ⟨rfl, rfl⟩
            · have hsync := syncRemoteChanges_acts env.git repoBranch a h'
              exact ⟨hsync.2, hsync.1⟩

/-- C10 witness: a one-submodule manifest processed without a GitHub token
at concrete oracles keeps the record's update flag false and its trace is
free of commits and pushes. -/
theorem c10_no_token_no_op_witness :
    (∀ s ∈ resolvePhase none engineEnvOk (parseGitmodulesContent manifestOne),
      s.needsUpdate = false) ∧
    (∀ a ∈ (updateSubmodules none engineEnvOk (some "main") false false
        (parseGitmodulesContent manifestOne)).1,
      isCommitAct a = false ∧ isPushAct a = false) :=
  ⟨(c10_no_token_no_op manifestOne engineEnvOk (some "main") false false).1,
   (c10_no_token_no_op manifestOne engineEnvOk (some "main") false false).2.2⟩

theorem fetchLatestCommitsOne_path (gh : GitHubOracle) (s : SubmoduleInfo) :
    (fetchLatestCommitsOne gh s).path = s.path := by
  unfold fetchLatestCommitsOne
  repeat' split
  all_goals rfl

theorem resolveOne_path (ghO : Option GitHubOracle) (env : EngineEnv)
    (s : SubmoduleInfo) : (resolveOne ghO env s).path = s.path := by
  cases ghO with
  | none => rfl
  | some gh => exact fetchLatestCommitsOne_path gh _

theorem updateSingleSubmodule_submodule (env : EngineEnv) (s : SubmoduleInfo) :
    (updateSingleSubmodule env s).2.submodule = s.path := by
  unfold updateSingleSubmodule
  repeat' split
  all_goals rfl

theorem updateSingleSubmodule_ok (env : EngineEnv) (s : SubmoduleInfo)
    (h1 : env.initErr s.path = none) (h2 : env.checkoutSubErr s.path = none)
    (h3 : env.commitErr s.path = none) :
    (updateSingleSubmodule env s).2 =
      { submodule := s.path, updated := true, fromCommit := s.currentCommit,
        toCommit := s.latestCommit, error := none } := by
  simp [updateSingleSubmodule, h1, h2, h3]

theorem recordedAfter_of_filter_nil (results : List UpdateResult)
    (rec : String → Option String) (p : String)
    (h : results.filter (fun r => r.updated && (p == r.submodule)) = []) :
    recordedAfter rec results p = rec p := by
  induction results generalizing rec with
  | nil => rfl
  | cons r rs ih =>
    rw [List.filter_cons] at h
    by_cases hc : (r.updated && (p == r.submodule)) = true
    · rw [if_pos hc] at h
      exact absurd h (List.cons_ne_nil _ _)
    · rw [if_neg hc] at h
      have hstep : recordedAfter rec (r :: rs) p =
          recordedAfter (applyOutcome rec r) rs p := rfl
      rw [hstep, ih _ h]
      simp [applyOutcome, hc]

theorem recordedAfter_of_filter_singleton (results : List UpdateResult)
    (rec : String → Option String) (p : String) (x : UpdateResult)
    (h : results.filter (fun r => r.updated && (p == r.submodule)) = [x]) :
    recordedAfter rec results p = some x.toCommit := by
  induction results generalizing rec with
  | nil => exact absurd h (by simp)
  | cons r rs ih =>
    rw [List.filter_cons] at h
    by_cases hc : (r.updated && (p == r.submodule)) = true
    · rw [if_pos hc] at h
      injection h with h1 h2
      subst h1
      have hstep : recordedAfter rec (r :: rs) p =
          recordedAfter (applyOutcome rec r) rs p := rfl
      rw [hstep, recordedAfter_of_filter_nil rs _ p h2]
      simp [applyOutcome, hc]
    · rw [if_neg hc] at h
      have hstep : recordedAfter rec (r :: rs) p =
          recordedAfter (applyOutcome rec r) rs p := rfl
      rw [hstep, ih _ h]

theorem run_filter_at_path (ghO : Option GitHubOracle) (env1 : EngineEnv)
    (hok : ∀ p, env1.initErr p = none ∧ env1.checkoutSubErr p = none ∧
      env1.commitErr p = none) :
    ∀ (subs : List SubmoduleInfo) (s : SubmoduleInfo), s ∈ subs →
      (subs.map (fun x => x.path)).Nodup →
      (subs.filterMap (fun t =>
          if qualifies (resolveOne ghO env1 t) then
            some (updateSingleSubmodule env1 (resolveOne ghO env1 t)).2
          else none)).filter
          (fun r => r.updated && (s.path == r.submodule)) =
        (if qualifies (resolveOne ghO env1 s) then
          [(updateSingleSubmodule env1 (resolveOne ghO env1 s)).2] else []) := by
  intro subs
  induction subs with
  | nil => intro s hs _; exact absurd hs (List.not_mem_nil s)
  | cons t rest ih =>
    intro s hs hnd
    rw [List.map_cons, List.nodup_cons] at hnd
    obtain ⟨hnotin, hnd'⟩ := hnd
    have hmem : ∀ r ∈ rest.filterMap (fun t =>
        if qualifies (resolveOne ghO env1 t) then
          some (updateSingleSubmodule env1 (resolveOne ghO env1 t)).2
        else none), r.submodule ∈ rest.map (fun x => x.path) := by
      intro r hr
      rcases List.mem_filterMap.mp hr with ⟨u, hu, hFu⟩
      by_cases hqu : qualifies (resolveOne ghO env1 u) = true
      · rw [if_pos hqu] at hFu
        injection hFu with hFu
        rw [← hFu, updateSingleSubmodule_submodule, resolveOne_path]
        exact List.mem_map_of_mem _ hu
      · rw [if_neg hqu] at hFu
        exact Option.noConfusion hFu
    have hrestnil : s.path = t.path →
        (rest.filterMap (fun t =>
          if qualifies (resolveOne ghO env1 t) then
            some (updateSingleSubmodule env1 (resolveOne ghO env1 t)).2
          else none)).filter
          (fun r => r.updated && (s.path == r.submodule)) = [] := by
      intro hp
      apply List.filter_eq_nil_iff.mpr
      intro r hr
      have hrs := hmem r hr
      have hne : s.path ≠ r.submodule := by
        rw [hp]
        intro hEq
        exact hnotin (hEq ▸ hrs)
      simp [hne]
    rcases List.mem_cons.mp hs with rfl | hs'
    · by_cases hqt : qualifies (resolveOne ghO env1 s) = true
      · have hupd := updateSingleSubmodule_ok env1 (resolveOne ghO env1 s)
          (hok _).1 (hok _).2.1 (hok _).2.2
        simp only [List.filterMap_cons, hqt, if_true, List.filter_cons]
        rw [hupd]
        simp only [resolveOne_path]
        rw [hrestnil rfl]
        simp [hqt, hupd]
      · simp only [List.filterMap_cons, hqt, if_false, Bool.false_eq_true]
        rw [hrestnil rfl]
    · have hps : s.path ≠ t.path := by
        intro hEq
        exact hnotin (hEq ▸ List.mem_map_of_mem _ hs')
      by_cases hqt : qualifies (resolveOne ghO env1 t) = true
      · have hupd := updateSingleSubmodule_ok env1 (resolveOne ghO env1 t)
          (hok _).1 (hok _).2.1 (hok _).2.2
        simp only [List.filterMap_cons, hqt, if_true, List.filter_cons]
        rw [hupd]
        simp only [resolveOne_path]
        rw [if_neg (by simp [hps])]
        exact ih s hs' hnd'
      · simp only [List.filterMap_cons, hqt, if_false, Bool.false_eq_true]
        exact ih s hs' hnd'

theorem second_resolve_not_qual (ghO : Option GitHubOracle)
    (env1 env2 : EngineEnv) (s : SubmoduleInfo) (hnu : s.needsUpdate = false)
    (hkey : env2.recCommit s.path =
      (if qualifies (resolveOne ghO env1 s) then
        some (resolveOne ghO env1 s).latestCommit
      else env1.recCommit s.path)) :
    qualifies (resolveOne ghO env2 s) = false := by
  cases ghO with
  | none => simp [resolveOne, qualifies, hnu]
  | some gh =>
    simp only [resolveOne] at hkey ⊢
    cases hurl : extractGitHubInfo s.url with
    | none => simp [fetchLatestCommitsOne, hurl, qualifies, hnu]
    | some pr =>
      obtain ⟨o, r⟩ := pr
      have hbr : ∀ c : String,
          branchFor gh { s with currentCommit := c } o r = branchFor gh s o r :=
        fun c => rfl
      cases hlat : getLatestCommit gh o r (branchFor gh s o r) with
      | error e =>
        simp [fetchLatestCommitsOne, hurl, hbr, hlat, qualifies]
      | ok sha =>
        simp only [fetchLatestCommitsOne, hurl, hbr, hlat, qualifies] at hkey ⊢
        by_cases hsc : sha = (env1.recCommit s.path).getD "unknown"
        · simp only [hsc, bne_self_eq_false, Bool.false_and] at hkey ⊢
          rw [hkey]
          simp
        · have hb1 : (sha != (env1.recCommit s.path).getD "unknown") = true := by
            simp [bne, hsc]
          have hb2 : ((env1.recCommit s.path).getD "unknown" != sha) = true := by
            simp [bne]
            exact fun hEq => hsc hEq.symm
          simp only [hb1, hb2, Bool.true_and, Bool.and_true, if_true] at hkey
          rw [hkey]
          simp

/-- C6: with unchanged upstream oracles, after a first run whose updates
all succeed, a second run over the same manifest — its recorded commits
being the first run's committed bindings — decides `updateRequired =
false` for every record and produces zero outcomes. -/
theorem c6_idempotent (content : String) (ghO : Option GitHubOracle)
    (env1 env2 : EngineEnv)
    (hnd : ((parseGitmodulesContent content).map (fun x => x.path)).Nodup)
    (hok : ∀ p, env1.initErr p = none ∧ env1.checkoutSubErr p = none ∧
      env1.commitErr p = none)
    (hrec2 : env2.recCommit = recordedAfter env1.recCommit
      (applyUpdates env1 (resolvePhase ghO env1
        (parseGitmodulesContent content))).2) :
    (∀ s ∈ resolvePhase ghO env2 (parseGitmodulesContent content),
      qualifies s = false) ∧
    (applyUpdates env2 (resolvePhase ghO env2
      (parseGitmodulesContent content))).2 = [] := by
  have hforall : ∀ s ∈ resolvePhase ghO env2 (parseGitmodulesContent content),
      qualifies s = false := by
    intro s' hs'
    rcases List.mem_map.mp hs' with ⟨s, hs, rfl⟩
    have hnu := (parse_records_init content s hs).1
    have hkey : env2.recCommit s.path =
        (if qualifies (resolveOne ghO env1 s) then
          some (resolveOne ghO env1 s).latestCommit
        else env1.recCommit s.path) := by
      have hres1 : (applyUpdates env1 (resolvePhase ghO env1
          (parseGitmodulesContent content))).2 =
          (parseGitmodulesContent content).filterMap (fun t =>
            if qualifies (resolveOne ghO env1 t) then
              some (updateSingleSubmodule env1 (resolveOne ghO env1 t)).2
            else none) := by
        rw [applyUpdates_eq_filterMap]
        simp only [resolvePhase]
        rw [List.filterMap_map]
        rfl
      rw [hrec2, hres1]
      have hG := run_filter_at_path ghO env1 hok
        (parseGitmodulesContent content) s hs hnd
      by_cases hq : qualifies (resolveOne ghO env1 s) = true
      · rw [if_pos hq] at hG ⊢
        rw [recordedAfter_of_filter_singleton _ _ _ _ hG]
        have hupd := updateSingleSubmodule_ok env1 (resolveOne ghO env1 s)
          (hok _).1 (hok _).2.1 (hok _).2.2
        rw [hupd]
      · rw [if_neg hq] at hG ⊢
        exact recordedAfter_of_filter_nil _ _ _ hG
    exact second_resolve_not_qual ghO env1 env2 s hnu hkey
  refine ⟨hforall, ?_⟩
  rw [applyUpdates_of_no_qual env2 _ hforall]

/-- C6 witness: a one-submodule manifest run against a fixed upstream tip;
the second run, whose recorded commits are the first run's committed
bindings, yields zero outcomes. -/
theorem c6_idempotent_witness :
    (applyUpdates engineEnvRun2 (resolvePhase (some ghServingB) engineEnvRun2
      (parseGitmodulesContent manifestOne))).2 = [] :=
  (c6_idempotent manifestOne (some ghServingB) engineEnvOk engineEnvRun2
    (by decide) (fun p => ⟨rfl, rfl, rfl⟩) rfl).2

end GithubSync
